import Mathlib

/-!
Verification of the postprocessing and evaluation utilities of a YOLOv3
object-detection repository (`utils/utils.py`): geometry (IoU), greedy NMS with
confidence-weighted merging, training-target assignment, and precision/recall
metrics.

Modelling conventions:
* floating-point numbers are modelled as exact rationals (`ℚ`); the literal
  `1e-16` is modelled as `1/10^16`;
* tensors indexed by `(batch, anchor, row, col)` are modelled as total
  functions from the index tuple, and vectorised index-assignment is modelled
  as a sequential list of writes applied left to right (last write wins);
* `torch.log` is modelled by `Real.log`;
* per-image loops are modelled as structural recursion over lists; the NMS
  `while` loop, whose termination is one of the properties under study, is
  modelled by its one-iteration step function together with explicit fuel.
-/

namespace Yolo

/-- The epsilon `1e-16` used throughout the source to guard divisions. -/
def eps : ℚ := 1 / 10 ^ 16

/-- A corner-form bounding box `(x1, y1, x2, y2)`. -/
structure Box where
  x1 : ℚ
  y1 : ℚ
  x2 : ℚ
  y2 : ℚ
deriving DecidableEq

/-- `bbox_iou` (corner-form branch, `x1y1x2y2=True`): intersection over union
with the `+1` inclusive-pixel convention and the `1e-16` guard, transcribed
from the source (`torch.clamp (· , min=0)` is `max · 0`). -/
def bbox_iou (b1 b2 : Box) : ℚ :=
  let inter_rect_x1 := max b1.x1 b2.x1
  let inter_rect_y1 := max b1.y1 b2.y1
  let inter_rect_x2 := min b1.x2 b2.x2
  let inter_rect_y2 := min b1.y2 b2.y2
  let inter_area := max (inter_rect_x2 - inter_rect_x1 + 1) 0 *
    max (inter_rect_y2 - inter_rect_y1 + 1) 0
  let b1_area := (b1.x2 - b1.x1 + 1) * (b1.y2 - b1.y1 + 1)
  let b2_area := (b2.x2 - b2.x1 + 1) * (b2.y2 - b2.y1 + 1)
  inter_area / (b1_area + b2_area - inter_area + eps)

/-- `bbox_wh_iou`: size-only IoU between an anchor shape `wh1` and a
ground-truth shape `wh2`, transcribed from the source (note the epsilon is
added to the first area inside the union). -/
def bbox_wh_iou (wh1 wh2 : ℚ × ℚ) : ℚ :=
  let inter_area := min wh1.1 wh2.1 * min wh1.2 wh2.2
  let union_area := wh1.1 * wh1.2 + eps + wh2.1 * wh2.2 - inter_area
  inter_area / union_area

/-- Maximum of a list of rationals (`torch.max` over a nonempty tensor;
`0` for the empty list, which the source never queries). -/
def maxD (l : List ℚ) : ℚ := l.foldl max (l.headD 0)

/-- Index of the first maximal element of a list (`torch.max(dim)` returns the
first maximal index). -/
def argmaxIdx (l : List ℚ) : ℕ :=
  (l.foldl (fun acc v => if acc.2.1 < v then (acc.2.2, v, acc.2.2 + 1)
    else (acc.1, acc.2.1, acc.2.2 + 1)) (0, l.headD 0, 0)).1

/-! ## NMS engine (`non_max_suppression`) -/

/-- One row of the `detections` tensor inside `non_max_suppression`:
`(x1, y1, x2, y2, object_conf, class_score, class_pred)`. -/
@[ext] structure Det where
  x1 : ℚ
  y1 : ℚ
  x2 : ℚ
  y2 : ℚ
  conf : ℚ
  cls_conf : ℚ
  cls_pred : ℚ
deriving DecidableEq

/-- The box columns `detections[i, :4]`. -/
def detBox (d : Det) : Box := ⟨d.x1, d.y1, d.x2, d.y2⟩

/-- The `invalid` mask of the merge loop:
`large_overlap & label_match` for row `d` against the top row `c`,
i.e. `bbox_iou(c, d) > nms_thres` and equal `class_pred`. -/
def invalidFlag (t : ℚ) (c d : Det) : Bool :=
  decide (t < bbox_iou (detBox c) (detBox d)) && decide (d.cls_pred = c.cls_pred)

/-- `detections[0, :4] = (weights * detections[invalid, :4]).sum(0) / weights.sum()`:
the top row with its box coordinates replaced by the objectness-weighted
average over the rows flagged `invalid` in `pool`. -/
def mergedHead (t : ℚ) (pool : List Det) (c : Det) : Det :=
  let s := pool.filter (invalidFlag t c)
  let wsum := (s.map (fun d => d.conf)).sum
  { c with
    x1 := (s.map (fun d => d.conf * d.x1)).sum / wsum
    y1 := (s.map (fun d => d.conf * d.y1)).sum / wsum
    x2 := (s.map (fun d => d.conf * d.x2)).sum / wsum
    y2 := (s.map (fun d => d.conf * d.y2)).sum / wsum }

/-- One iteration of the merge `while` loop: on a nonempty pool, compute the
`invalid` mask against the top row, overwrite the top row's coordinates with
the weighted merge, emit it, and keep the rows whose mask entry is false
(`detections = detections[~invalid]`, applied positionally, so the possibly
unremoved top row survives with its merged coordinates). -/
def nmsStep (t : ℚ) : List Det → Option (Det × List Det)
  | [] => none
  | c :: rest =>
    let flags := (c :: rest).map (invalidFlag t c)
    let c' := mergedHead t (c :: rest) c
    some (c', ((c' :: rest).zip flags).filterMap fun p => if p.2 then none else some p.1)

/-- The candidate pool left after one iteration of the merge loop
(empty input stays empty). -/
def nmsPoolStep (t : ℚ) (l : List Det) : List Det :=
  match nmsStep t l with
  | none => []
  | some (_, rest) => rest

/-- The merge loop run with explicit fuel, collecting `keep_boxes`. -/
def nmsLoop (t : ℚ) : ℕ → List Det → List Det
  | 0, _ => []
  | fuel + 1, l =>
    match nmsStep t l with
    | none => []
    | some (k, rest) => k :: nmsLoop t fuel rest

/-- One row of the raw prediction tensor:
`(center x, center y, w, h, object_conf, class scores...)`. -/
structure PredRow where
  cx : ℚ
  cy : ℚ
  w : ℚ
  h : ℚ
  conf : ℚ
  scores : List ℚ
deriving DecidableEq

/-- `xywh2xyxy` on the box columns of one row. -/
def xywh2xyxy (r : PredRow) : Box :=
  ⟨r.cx - r.w / 2, r.cy - r.h / 2, r.cx + r.w / 2, r.cy + r.h / 2⟩

/-- `score = image_pred[:, 4] * image_pred[:, 5:].max(1)[0]`. -/
def rowScore (r : PredRow) : ℚ := r.conf * maxD r.scores

/-- Build a `detections` row from a (converted) prediction row:
box coordinates, objectness, max class score, argmax class index. -/
def rowToDet (r : PredRow) : Det :=
  let b := xywh2xyxy r
  ⟨b.x1, b.y1, b.x2, b.y2, r.conf, maxD r.scores, (argmaxIdx r.scores : ℚ)⟩

/-- Stable descending insertion by combined score
(`image_pred[(-score).argsort()]`). -/
def insertDesc (r : PredRow) : List PredRow → List PredRow
  | [] => [r]
  | x :: xs => if rowScore x < rowScore r then r :: x :: xs else x :: insertDesc r xs

/-- Sort rows by combined score, descending (stable). -/
def sortByScoreDesc (l : List PredRow) : List PredRow := l.foldr insertDesc []

/-- Per-image body of `non_max_suppression`: confidence filtering, score
sorting, then the merge loop; `None` when no candidate survives the filter. -/
def image_nms (conf_thres nms_thres : ℚ) (rows : List PredRow) : Option (List Det) :=
  match rows.filter (fun r => conf_thres ≤ r.conf) with
  | [] => none
  | surv =>
    let sorted := (sortByScoreDesc surv).map rowToDet
    some (nmsLoop nms_thres sorted.length sorted)

/-- `non_max_suppression` over a batch of images. -/
def non_max_suppression (batch : List (List PredRow)) (conf_thres nms_thres : ℚ) :
    List (Option (List Det)) :=
  batch.map (image_nms conf_thres nms_thres)

/-- Reinterpret an output detection row as a raw prediction row, as feeding
`non_max_suppression`'s 7-column output back into it would: the four (corner
form) box columns land in the center-size slots and the trailing
`(class_score, class_pred)` columns become the class-score block. -/
def detToRow (d : Det) : PredRow :=
  ⟨d.x1, d.y1, d.x2, d.y2, d.conf, [d.cls_conf, d.cls_pred]⟩

/-! ## Target assignment (`build_targets`) -/

/-- One ground-truth row of `target`: `(batch index, label, x, y, w, h)` with
normalized center-size coordinates. -/
structure BTarget where
  b : ℕ
  label : ℕ
  x : ℚ
  y : ℚ
  w : ℚ
  h : ℚ
deriving DecidableEq

/-- Scaled center x: `gx = target x * nG`. -/
def gxOf (nG : ℕ) (t : BTarget) : ℚ := t.x * nG

/-- Scaled center y: `gy = target y * nG`. -/
def gyOf (nG : ℕ) (t : BTarget) : ℚ := t.y * nG

/-- Scaled width: `gw = target w * nG`. -/
def gwOf (nG : ℕ) (t : BTarget) : ℚ := t.w * nG

/-- Scaled height: `gh = target h * nG`. -/
def ghOf (nG : ℕ) (t : BTarget) : ℚ := t.h * nG

/-- `torch.Tensor.long()`: truncation toward zero on ℚ. -/
def truncQ (q : ℚ) : ℤ := if 0 ≤ q then ⌊q⌋ else -⌊-q⌋

/-- The per-anchor size-only IoUs of one ground truth
(`[bbox_wh_iou(anchor, gwh) for anchor in anchors]`). -/
def anchorIous (anchors : List (ℚ × ℚ)) (nG : ℕ) (t : BTarget) : List ℚ :=
  anchors.map fun a => bbox_wh_iou a (gwOf nG t, ghOf nG t)

/-- `best_n`: index of the anchor of maximal size-only IoU (first on ties). -/
def bestAnchor (anchors : List (ℚ × ℚ)) (nG : ℕ) (t : BTarget) : ℕ :=
  argmaxIdx (anchorIous anchors nG t)

/-- The write location `[b, best_n, gj, gi]` of a ground truth, with
`gj, gi = gxy.long()` (truncation) of the scaled center y resp. x. -/
def targetLoc (anchors : List (ℚ × ℚ)) (nG : ℕ) (t : BTarget) : ℕ × ℕ × ℤ × ℤ :=
  (t.b, bestAnchor anchors nG t, truncQ (gyOf nG t), truncQ (gxOf nG t))

/-- Apply a list of index writes to an initial tensor-as-function, left to
right (vectorised index assignment with last write winning). -/
def scatterList {K β : Type} [DecidableEq K] (init : K → β) (ws : List (K × β)) : K → β :=
  ws.foldl (fun f kv => fun i => if i = kv.1 then kv.2 else f i) init

/-- `obj_mask`: zero-initialised, then `obj_mask[b, best_n, gj, gi] = 1` for
every ground truth. -/
def obj_mask (targets : List BTarget) (anchors : List (ℚ × ℚ)) (nG : ℕ) :
    ℕ × ℕ × ℤ × ℤ → ℕ :=
  scatterList (fun _ => 0) (targets.map fun t => (targetLoc anchors nG t, 1))

/-- The writes of the ignore loop: for each ground truth, clear `noobj_mask`
at its cell for every anchor whose size-only IoU exceeds `ignore_thres`. -/
def noobjIgnoreWrites (targets : List BTarget) (anchors : List (ℚ × ℚ)) (nG : ℕ)
    (ignore_thres : ℚ) : List ((ℕ × ℕ × ℤ × ℤ) × ℕ) :=
  targets.flatMap fun t =>
    ((List.range anchors.length).filter fun a =>
      ignore_thres < bbox_wh_iou (anchors.getD a (0, 0)) (gwOf nG t, ghOf nG t)).map
      fun a => ((t.b, a, truncQ (gyOf nG t), truncQ (gxOf nG t)), 0)

/-- `noobj_mask`: one-initialised, then `noobj_mask[b, best_n, gj, gi] = 0`
for every ground truth, then the ignore-threshold writes. -/
def noobj_mask (targets : List BTarget) (anchors : List (ℚ × ℚ)) (nG : ℕ)
    (ignore_thres : ℚ) : ℕ × ℕ × ℤ × ℤ → ℕ :=
  scatterList (fun _ => 1)
    ((targets.map fun t => (targetLoc anchors nG t, 0)) ++
      noobjIgnoreWrites targets anchors nG ignore_thres)

/-- `tx[b, best_n, gj, gi] = gx - gx.floor()`. -/
def tx_tensor (targets : List BTarget) (anchors : List (ℚ × ℚ)) (nG : ℕ) :
    ℕ × ℕ × ℤ × ℤ → ℚ :=
  scatterList (fun _ => 0)
    (targets.map fun t => (targetLoc anchors nG t, gxOf nG t - (⌊gxOf nG t⌋ : ℤ)))

/-- `ty[b, best_n, gj, gi] = gy - gy.floor()`. -/
def ty_tensor (targets : List BTarget) (anchors : List (ℚ × ℚ)) (nG : ℕ) :
    ℕ × ℕ × ℤ × ℤ → ℚ :=
  scatterList (fun _ => 0)
    (targets.map fun t => (targetLoc anchors nG t, gyOf nG t - (⌊gyOf nG t⌋ : ℤ)))

/-- `tw[b, best_n, gj, gi] = log(gw / anchors[best_n][:, 0] + 1e-16)`. -/
noncomputable def tw_tensor (targets : List BTarget) (anchors : List (ℚ × ℚ)) (nG : ℕ) :
    ℕ × ℕ × ℤ × ℤ → ℝ :=
  scatterList (fun _ => 0)
    (targets.map fun t => (targetLoc anchors nG t,
      Real.log ((gwOf nG t / (anchors.getD (bestAnchor anchors nG t) (0, 0)).1 + eps : ℚ))))

/-- `th[b, best_n, gj, gi] = log(gh / anchors[best_n][:, 1] + 1e-16)`. -/
noncomputable def th_tensor (targets : List BTarget) (anchors : List (ℚ × ℚ)) (nG : ℕ) :
    ℕ × ℕ × ℤ × ℤ → ℝ :=
  scatterList (fun _ => 0)
    (targets.map fun t => (targetLoc anchors nG t,
      Real.log ((ghOf nG t / (anchors.getD (bestAnchor anchors nG t) (0, 0)).2 + eps : ℚ))))

/-! ## Metrics engine (`get_batch_statistics`, `ap_per_class`, `compute_ap`) -/

/-- One ground-truth annotation of an image inside `get_batch_statistics`:
`(class, x1, y1, x2, y2)`. -/
structure GtAnn where
  label : ℚ
  x1 : ℚ
  y1 : ℚ
  x2 : ℚ
  y2 : ℚ
deriving DecidableEq

/-- One detection row consumed by `get_batch_statistics`:
box, score, predicted label. -/
structure PredDet where
  x1 : ℚ
  y1 : ℚ
  x2 : ℚ
  y2 : ℚ
  score : ℚ
  label : ℚ
deriving DecidableEq

/-- The per-detection matching loop of `get_batch_statistics`: returns the
true-positive flags and the final list of claimed ground-truth indices.
Transcribed branch for branch: break once every annotation is claimed; skip a
detection whose label is absent from the image's ground-truth labels; else
take the max-IoU ground truth (of any class) and claim it when the IoU
reaches the threshold and it is unclaimed. -/
def gbs_match (thr : ℚ) (anns : List GtAnn) :
    List PredDet → List ℕ → List ℚ × List ℕ
  | [], claimed => ([], claimed)
  | d :: ds, claimed =>
    if claimed.length = anns.length then
      (List.replicate (d :: ds).length 0, claimed)
    else if d.label ∈ anns.map GtAnn.label then
      let ious := anns.map fun a => bbox_iou ⟨d.x1, d.y1, d.x2, d.y2⟩ ⟨a.x1, a.y1, a.x2, a.y2⟩
      let j := argmaxIdx ious
      if thr ≤ maxD ious ∧ j ∉ claimed then
        let r := gbs_match thr anns ds (claimed ++ [j])
        (1 :: r.1, r.2)
      else
        let r := gbs_match thr anns ds claimed
        (0 :: r.1, r.2)
    else
      let r := gbs_match thr anns ds claimed
      (0 :: r.1, r.2)

/-- One row of the `targets` array of `get_batch_statistics`:
`(sample index, class, box)`. -/
structure TRow where
  img : ℕ
  label : ℚ
  x1 : ℚ
  y1 : ℚ
  x2 : ℚ
  y2 : ℚ
deriving DecidableEq

/-- `get_batch_statistics`: per non-absent image, the true-positive flags,
scores and labels of its detections. -/
def get_batch_statistics (outputs : List (Option (List PredDet))) (targets : List TRow)
    (iou_threshold : ℚ) : List (List ℚ × List ℚ × List ℚ) :=
  outputs.enum.filterMap fun p =>
    match p.2 with
    | none => none
    | some dets =>
      let anns := (targets.filter fun r => r.img = p.1).map fun r =>
        GtAnn.mk r.label r.x1 r.y1 r.x2 r.y2
      some ((gbs_match iou_threshold anns dets []).1,
        dets.map PredDet.score, dets.map PredDet.label)

/-- Backward maximum scan of `compute_ap`
(`for i in range(mpre.size - 1, 0, -1): mpre[i-1] = max(mpre[i-1], mpre[i])`):
each entry becomes the maximum of its suffix. -/
def suffixMax : List ℚ → List ℚ
  | [] => []
  | x :: xs =>
    match suffixMax xs with
    | [] => [x]
    | y :: ys => max x y :: y :: ys

/-- The padded precision envelope of `compute_ap`: sentinels
`[0.0] ++ precision ++ [0.0]`, then the backward maximum scan. -/
def ap_envelope (precision : List ℚ) : List ℚ := suffixMax (0 :: (precision ++ [0]))

/-- `sum((mrec[i+1] - mrec[i]) * mpre[i+1])` over the indices where the
recall value changes. -/
def apSum : List ℚ → List ℚ → ℚ
  | r1 :: r2 :: rs, _ :: p2 :: ps =>
    (if r2 ≠ r1 then (r2 - r1) * p2 else 0) + apSum (r2 :: rs) (p2 :: ps)
  | _, _ => 0

/-- `compute_ap`: pad the recall curve with `0`/`1` sentinels, build the
precision envelope, and integrate it as a step function in recall. -/
def compute_ap (recs precs : List ℚ) : ℚ :=
  apSum (0 :: (recs ++ [1])) (ap_envelope precs)

/-- `(l.scanl (+) 0).tail`: running cumulative sums (`np.cumsum`). -/
def cumsum (l : List ℚ) : List ℚ := (l.scanl (fun a b => a + b) 0).tail

/-- `np.unique`: sorted distinct values. -/
def uniqueSorted (l : List ℤ) : List ℤ :=
  (l.insertionSort fun a b => a ≤ b).dedup

/-- The prediction triples `(tp, conf, pred_cls)` sorted by descending
confidence (`np.argsort(-conf)`). -/
def sortedTriples (tp conf : List ℚ) (pred : List ℤ) : List (ℚ × ℚ × ℤ) :=
  (tp.zip (conf.zip pred)).insertionSort fun a b => b.2.1 ≤ a.2.1

/-- `tp[i]` for `i = pred_cls == c`: the tp flags of the predictions of
class `c`, in confidence order. -/
def classTps (s : List (ℚ × ℚ × ℤ)) (c : ℤ) : List ℚ :=
  (s.filter fun x => x.2.2 = c).map fun x => x.1

/-- Loop body of `ap_per_class` for one class `c`: `None` on the
`n_p == 0 and n_gt == 0` skip branch, else the appended
`(precision, recall, AP)` triple. -/
def apEntry (s : List (ℚ × ℚ × ℤ)) (target : List ℤ) (c : ℤ) : Option (ℚ × ℚ × ℚ) :=
  let tps := classTps s c
  let n_gt := target.count c
  let n_p := tps.length
  if n_p = 0 ∧ n_gt = 0 then none
  else if n_p = 0 ∨ n_gt = 0 then some (0, 0, 0)
  else
    let tpc := cumsum tps
    let fpc := cumsum (tps.map fun v => 1 - v)
    let recall_curve := tpc.map fun v => v / ((n_gt : ℚ) + eps)
    let precision_curve := List.zipWith (fun a b => a / (a + b)) tpc fpc
    some (precision_curve.getLastD 0, recall_curve.getLastD 0,
      compute_ap recall_curve precision_curve)

/-- The five arrays returned by `ap_per_class`. -/
structure APResult where
  p : List ℚ
  r : List ℚ
  ap : List ℚ
  f1 : List ℚ
  classes : List ℤ
deriving DecidableEq

/-- `ap_per_class`: sort by objectness, enumerate the unique ground-truth
classes, run the per-class loop, and attach the F1 scores. -/
def ap_per_class (tp conf : List ℚ) (pred target : List ℤ) : APResult :=
  let s := sortedTriples tp conf pred
  let classes := uniqueSorted target
  let entries := classes.filterMap (apEntry s target)
  let ps := entries.map fun e => e.1
  let rs := entries.map fun e => e.2.1
  { p := ps
    r := rs
    ap := entries.map fun e => e.2.2
    f1 := List.zipWith (fun pv rv => 2 * pv * rv / (pv + rv + eps)) ps rs
    classes := classes }

/-! ## Theorems -/

/-- Claim C5: for every pair of corner-form boxes A and B with `x2 ≥ x1` and
`y2 ≥ y1`, `bbox_iou A B` equals `I / (areaA + areaB - I + 1e-16)` where
`I = max (min Ax2 Bx2 - max Ax1 Bx1 + 1) 0 * max (min Ay2 By2 - max Ay1 By1 + 1) 0`
and each area is `(x2 - x1 + 1) * (y2 - y1 + 1)`: the `+1` inclusive-pixel
convention is applied identically to intersection and areas, and the
denominator carries the `1e-16` epsilon. -/
theorem bbox_iou_formula (a b : Box)
    (_ha : a.x1 ≤ a.x2) (_hb : a.y1 ≤ a.y2) (_hc : b.x1 ≤ b.x2) (_hd : b.y1 ≤ b.y2) :
    bbox_iou a b =
      max (min a.x2 b.x2 - max a.x1 b.x1 + 1) 0 * max (min a.y2 b.y2 - max a.y1 b.y1 + 1) 0 /
        ((a.x2 - a.x1 + 1) * (a.y2 - a.y1 + 1) + (b.x2 - b.x1 + 1) * (b.y2 - b.y1 + 1) -
          max (min a.x2 b.x2 - max a.x1 b.x1 + 1) 0 * max (min a.y2 b.y2 - max a.y1 b.y1 + 1) 0 +
          1 / 10 ^ 16) := by
  rfl

/-- Witness for C5 at concrete boxes. -/
theorem bbox_iou_formula_witness :
    (0 : ℚ) ≤ 2 ∧
      bbox_iou ⟨0, 0, 2, 2⟩ ⟨1, 1, 3, 3⟩ =
        max (min (2 : ℚ) 3 - max 0 1 + 1) 0 * max (min (2 : ℚ) 3 - max 0 1 + 1) 0 /
          (((2 : ℚ) - 0 + 1) * (2 - 0 + 1) + (3 - 1 + 1) * (3 - 1 + 1) -
            max (min (2 : ℚ) 3 - max 0 1 + 1) 0 * max (min (2 : ℚ) 3 - max 0 1 + 1) 0 +
            1 / 10 ^ 16) :=
  ⟨by norm_num, bbox_iou_formula ⟨0, 0, 2, 2⟩ ⟨1, 1, 3, 3⟩ (by norm_num) (by norm_num)
    (by norm_num) (by norm_num)⟩

/-- Counterexample to Claim C6 as stated: box B `(3/2, 0, 5/2, 1)` lies
strictly to the right of box A `(0, 0, 1, 1)` (`B.x1 > A.x2`, so the boxes do
not spatially overlap), yet `bbox_iou` is not 0, because the `+1`
inclusive-pixel convention makes the clamped intersection term positive for
gaps smaller than one unit. -/
theorem bbox_iou_nonoverlap_counterexample :
    (1 : ℚ) < 3 / 2 ∧ bbox_iou ⟨0, 0, 1, 1⟩ ⟨3 / 2, 0, 5 / 2, 1⟩ ≠ 0 := by
  constructor
  · norm_num
  · simp only [bbox_iou, eps]
    norm_num [min_def, max_def]

/-- Claim C6 amended: for well-formed corner boxes (`x2 ≥ x1`, `y2 ≥ y1`, the
data model's box invariant), `bbox_iou` returns exactly 0 precisely when the
boxes are separated by at least one unit along some axis, i.e. when a clamped
inclusive-intersection term is non-positive (`min x2 - max x1 + 1 ≤ 0` in x,
or the analogue in y); in particular for integer-coordinate boxes strictly to
the right of / below each other, but not for boxes with a sub-unit gap. -/
theorem bbox_iou_separated_eq_zero (a b : Box)
    (ha : a.x1 ≤ a.x2) (hb : a.y1 ≤ a.y2) (hc : b.x1 ≤ b.x2) (hd : b.y1 ≤ b.y2) :
    bbox_iou a b = 0 ↔
      min a.x2 b.x2 - max a.x1 b.x1 + 1 ≤ 0 ∨ min a.y2 b.y2 - max a.y1 b.y1 + 1 ≤ 0 := by
  have hform : bbox_iou a b =
      max (min a.x2 b.x2 - max a.x1 b.x1 + 1) 0 * max (min a.y2 b.y2 - max a.y1 b.y1 + 1) 0 /
        ((a.x2 - a.x1 + 1) * (a.y2 - a.y1 + 1) + (b.x2 - b.x1 + 1) * (b.y2 - b.y1 + 1) -
          max (min a.x2 b.x2 - max a.x1 b.x1 + 1) 0 *
            max (min a.y2 b.y2 - max a.y1 b.y1 + 1) 0 + eps) := rfl
  have hux : max (min a.x2 b.x2 - max a.x1 b.x1 + 1) 0 ≤ b.x2 - b.x1 + 1 :=
    max_le (by linarith [min_le_right a.x2 b.x2, le_max_right a.x1 b.x1]) (by linarith)
  have huy : max (min a.y2 b.y2 - max a.y1 b.y1 + 1) 0 ≤ b.y2 - b.y1 + 1 :=
    max_le (by linarith [min_le_right a.y2 b.y2, le_max_right a.y1 b.y1]) (by linarith)
  have hI : max (min a.x2 b.x2 - max a.x1 b.x1 + 1) 0 *
      max (min a.y2 b.y2 - max a.y1 b.y1 + 1) 0 ≤
      (b.x2 - b.x1 + 1) * (b.y2 - b.y1 + 1) :=
    mul_le_mul hux huy (le_max_right _ _) (by linarith)
  have hA1 : (1 : ℚ) ≤ (a.x2 - a.x1 + 1) * (a.y2 - a.y1 + 1) := by nlinarith
  have heps : (0 : ℚ) < eps := by norm_num [eps]
  have hden : (0 : ℚ) <
      (a.x2 - a.x1 + 1) * (a.y2 - a.y1 + 1) + (b.x2 - b.x1 + 1) * (b.y2 - b.y1 + 1) -
        max (min a.x2 b.x2 - max a.x1 b.x1 + 1) 0 *
          max (min a.y2 b.y2 - max a.y1 b.y1 + 1) 0 + eps := by
    linarith
  rw [hform, div_eq_zero_iff]
  constructor
  · rintro (h | h)
    · rcases mul_eq_zero.mp h with h' | h'
      · exact Or.inl (max_eq_right_iff.mp h')
      · exact Or.inr (max_eq_right_iff.mp h')
    · exact absurd h (ne_of_gt hden)
  · rintro (h | h)
    · exact Or.inl (by rw [max_eq_right h, zero_mul])
    · exact Or.inl (by rw [max_eq_right h, mul_zero])

/-- Witness for the amended C6: for well-formed boxes one full unit apart the
characterization applies, and their IoU is exactly 0. -/
theorem bbox_iou_separated_eq_zero_witness :
    ((0 : ℚ) ≤ 1 ∧ (0 : ℚ) ≤ 1 ∧ (3 : ℚ) ≤ 4 ∧ (0 : ℚ) ≤ 1) ∧
      (bbox_iou ⟨0, 0, 1, 1⟩ ⟨3, 0, 4, 1⟩ = 0 ↔
        min (1 : ℚ) 4 - max 0 3 + 1 ≤ 0 ∨ min (1 : ℚ) 1 - max 0 0 + 1 ≤ 0) :=
  ⟨⟨by norm_num, by norm_num, by norm_num, by norm_num⟩,
    bbox_iou_separated_eq_zero ⟨0, 0, 1, 1⟩ ⟨3, 0, 4, 1⟩ (by norm_num) (by norm_num)
      (by norm_num) (by norm_num)⟩

/-- Helper: the backward maximum scan yields an adjacent-wise non-increasing
list. -/
theorem suffixMax_chain (l : List ℚ) : List.Chain' (fun a b => b ≤ a) (suffixMax l) := by
  induction l with
  | nil => simp [suffixMax]
  | cons x xs ih =>
    rw [suffixMax]
    cases h : suffixMax xs with
    | nil => simp
    | cons y ys =>
      rw [h] at ih
      exact List.chain'_cons.mpr ⟨le_max_right x y, ih⟩

/-- Claim C10: for any input recall and precision curves, the padded precision
array produced by `compute_ap`'s backward maximum scan is a non-increasing
envelope along the recall axis: every element is greater than or equal to the
element at the next index. -/
theorem ap_envelope_antitone (recs precs : List ℚ) :
    List.Chain' (fun a b => b ≤ a) (ap_envelope precs) ∧
      compute_ap recs precs = apSum (0 :: (recs ++ [1])) (ap_envelope precs) :=
  ⟨suffixMax_chain _, rfl⟩

/-- Helper: positional masking of a list by the pointwise image of a Boolean
function is filtering by its negation. -/
theorem zip_map_filterMask {α : Type} (f : α → Bool) (l : List α) :
    ((l.zip (l.map f)).filterMap fun p => if p.2 then none else some p.1) =
      l.filter fun d => !(f d) := by
  induction l with
  | nil => rfl
  | cons x xs ih =>
    simp only [List.map_cons, List.zip_cons_cons, List.filterMap_cons, List.filter_cons]
    cases h : f x <;> simp [h, ih]

/-- Helper: the one-iteration shape of the merge loop on a nonempty pool. -/
theorem nmsStep_cons (t : ℚ) (c : Det) (rest : List Det) :
    nmsStep t (c :: rest) =
      some (mergedHead t (c :: rest) c,
        (if invalidFlag t c c then [] else [mergedHead t (c :: rest) c]) ++
          rest.filter fun d => !(invalidFlag t c d)) := by
  simp only [nmsStep, List.map_cons, List.zip_cons_cons, List.filterMap_cons]
  cases h : invalidFlag t c c <;>
    simp [h, zip_map_filterMask]

/-- Helper: the `invalid` mask as a decidable proposition. -/
theorem invalidFlag_eq_decide (t : ℚ) (c d : Det) :
    invalidFlag t c d =
      decide (bbox_iou (detBox c) (detBox d) > t ∧ d.cls_pred = c.cls_pred) := by
  simp [invalidFlag]

/-- Helper: `invalidFlag_eq_decide`, as an equality of predicates. -/
theorem invalidFlag_fun_eq (t : ℚ) (c : Det) :
    invalidFlag t c =
      fun d => decide (bbox_iou (detBox c) (detBox d) > t ∧ d.cls_pred = c.cls_pred) :=
  funext fun d => invalidFlag_eq_decide t c d

/-- Claim C1: each iteration of the per-image merge loop takes the
highest-scoring remaining candidate C, forms the set S of remaining candidates
(C itself scanned along with the rest) whose corner-form IoU with C strictly
exceeds `nms_thres` and whose predicted class equals C's, replaces C's four
box coordinates by the objectness-weighted average of S's coordinates
(`Σ objectness_i * coord_i / Σ objectness_i`), emits the updated C as one kept
detection, and removes exactly the members of S from the candidate pool. -/
theorem nms_merge_step_spec (t : ℚ) (c : Det) (rest : List Det) :
    nmsStep t (c :: rest) =
      (let S := (c :: rest).filter fun d =>
        decide (bbox_iou (detBox c) (detBox d) > t ∧ d.cls_pred = c.cls_pred)
      let wsum := (S.map fun d => d.conf).sum
      let k : Det := ⟨(S.map fun d => d.conf * d.x1).sum / wsum,
        (S.map fun d => d.conf * d.y1).sum / wsum,
        (S.map fun d => d.conf * d.x2).sum / wsum,
        (S.map fun d => d.conf * d.y2).sum / wsum, c.conf, c.cls_conf, c.cls_pred⟩
      some (k,
        (if bbox_iou (detBox c) (detBox c) > t ∧ c.cls_pred = c.cls_pred then [] else [k]) ++
          rest.filter fun d =>
            decide (¬(bbox_iou (detBox c) (detBox d) > t ∧ d.cls_pred = c.cls_pred)))) := by
  rw [nmsStep_cons]
  simp only [mergedHead, invalidFlag_fun_eq, invalidFlag_eq_decide, decide_eq_true_eq,
    decide_not]

/-- Helper: the self-IoU of a well-formed box is `A/(A + 1e-16)` with
`A ≥ 1`, hence exceeds any threshold at most `1 - 1e-16`. -/
theorem self_iou_gt (d : Det) (hx : d.x1 ≤ d.x2) (hy : d.y1 ≤ d.y2) {t : ℚ}
    (ht : t ≤ 1 - 1 / 10 ^ 16) :
    t < bbox_iou (detBox d) (detBox d) := by
  have e : bbox_iou (detBox d) (detBox d) =
      (d.x2 - d.x1 + 1) * (d.y2 - d.y1 + 1) /
        ((d.x2 - d.x1 + 1) * (d.y2 - d.y1 + 1) + 1 / 10 ^ 16) := by
    simp only [bbox_iou, detBox, eps, min_self, max_self]
    rw [max_eq_left (by linarith), max_eq_left (by linarith)]
    ring_nf
  rw [e]
  have hA : (1 : ℚ) ≤ (d.x2 - d.x1 + 1) * (d.y2 - d.y1 + 1) := by nlinarith
  have hden : (0 : ℚ) < (d.x2 - d.x1 + 1) * (d.y2 - d.y1 + 1) + 1 / 10 ^ 16 := by nlinarith
  rw [lt_div_iff₀ hden]
  nlinarith [mul_le_mul_of_nonneg_right ht hden.le]

/-- Helper: with well-formed boxes and `nms_thres ≤ 1 - 1e-16`, enough
iterations of the merge loop empty the candidate pool. -/
theorem nmsPool_reaches_nil (t : ℚ) (ht : t ≤ 1 - 1 / 10 ^ 16) :
    ∀ (k : ℕ) (l : List Det), l.length ≤ k →
      (∀ d ∈ l, d.x1 ≤ d.x2 ∧ d.y1 ≤ d.y2) → (nmsPoolStep t)^[k] l = [] := by
  intro k
  induction k with
  | zero =>
    intro l hl _
    rw [List.length_eq_zero.mp (Nat.le_zero.mp hl)]
    rfl
  | succ k ih =>
    intro l hl hwf
    rw [Function.iterate_succ_apply]
    match l with
    | [] =>
      have h0 : nmsPoolStep t [] = [] := rfl
      rw [h0]
      exact ih [] (by simp) (by simp)
    | c :: rest =>
      have hcc : invalidFlag t c c = true := by
        have := self_iou_gt c (hwf c (by simp)).1 (hwf c (by simp)).2 ht
        simp [invalidFlag, this]
      have hstep : nmsPoolStep t (c :: rest) =
          rest.filter fun d => !(invalidFlag t c d) := by
        simp [nmsPoolStep, nmsStep_cons, hcc]
      rw [hstep]
      refine ih _ (le_trans (List.length_filter_le _ _) ?_) ?_
      · simpa using hl
      · intro d hd
        exact hwf d (List.mem_cons_of_mem c (List.mem_of_mem_filter hd))

/-- Counterexample to Claim C8 as stated: with `nms_thres = 1 ∈ [0, 1]` and a
single candidate surviving the confidence filter (`n = 1`), the merge loop
does not terminate within `n` iterations — the candidate's self-IoU is
`9/(9 + 1e-16) < 1`, so the `invalid` set is empty, nothing is removed, and
the pool after one iteration is still nonempty (the loop in fact never
empties it). -/
theorem nms_loop_stalls_at_thres_one :
    ((0 : ℚ) ≤ 1 ∧ (1 : ℚ) ≤ 1) ∧
      ([(⟨0, 0, 2, 2, 9 / 10, [4 / 5]⟩ : PredRow)].filter fun r => (1 : ℚ) / 2 ≤ r.conf) =
        [⟨0, 0, 2, 2, 9 / 10, [4 / 5]⟩] ∧
      (nmsPoolStep 1)^[1] [(⟨0, 0, 2, 2, 9 / 10, 4 / 5, 0⟩ : Det)] ≠ [] := by
  refine ⟨⟨by norm_num, le_rfl⟩, ?_, ?_⟩
  · simp only [List.filter_cons, List.filter_nil]
    norm_num
  · have hf : invalidFlag 1 ⟨0, 0, 2, 2, 9 / 10, 4 / 5, 0⟩
        ⟨0, 0, 2, 2, 9 / 10, 4 / 5, 0⟩ = false := by
      simp only [invalidFlag, detBox, bbox_iou, eps]
      norm_num [min_def, max_def]
    rw [Function.iterate_one]
    simp [nmsPoolStep, nmsStep_cons, hf]

/-- Claim C8 amended: the merge loop terminates within `n` iterations (each
iteration removing the whole matched cluster, which always contains the top
candidate) provided every candidate box is well-formed (`x2 ≥ x1`, `y2 ≥ y1`)
and `nms_thres ≤ 1 - 1e-16`; at `nms_thres = 1` (or with degenerate boxes)
the top candidate's self-IoU `A/(A + 1e-16)` no longer exceeds the threshold
and the loop stalls forever. -/
theorem nms_loop_terminates (t : ℚ) (l : List Det)
    (ht : t ≤ 1 - 1 / 10 ^ 16)
    (hwf : ∀ d ∈ l, d.x1 ≤ d.x2 ∧ d.y1 ≤ d.y2) :
    (nmsPoolStep t)^[l.length] l = [] :=
  nmsPool_reaches_nil t ht l.length l le_rfl hwf

/-- Witness for the amended C8 at a concrete pool. -/
theorem nms_loop_terminates_witness :
    ((2 : ℚ) / 5 ≤ 1 - 1 / 10 ^ 16) ∧
      (nmsPoolStep (2 / 5))^[1] [(⟨0, 0, 2, 2, 9 / 10, 4 / 5, 0⟩ : Det)] = [] :=
  ⟨by norm_num,
    nms_loop_terminates (2 / 5) [⟨0, 0, 2, 2, 9 / 10, 4 / 5, 0⟩] (by norm_num)
      (by
        intro d hd
        rw [List.mem_singleton] at hd
        subst hd
        exact ⟨by norm_num, by norm_num⟩)⟩

/-- Helper: when the cluster of the top candidate is just itself, the
weighted merge leaves its coordinates unchanged (its objectness cancels). -/
theorem mergedHead_self (t : ℚ) (c : Det) (rest : List Det)
    (hcc : invalidFlag t c c = true)
    (hrest : ∀ d ∈ rest, invalidFlag t c d = false)
    (hc : c.conf ≠ 0) :
    mergedHead t (c :: rest) c = c := by
  have hS : (c :: rest).filter (invalidFlag t c) = [c] := by
    rw [List.filter_cons_of_pos hcc, List.filter_eq_nil_iff.mpr (by simpa using hrest)]
  simp [mergedHead, hS, mul_div_cancel_left₀, hc]

/-- Claim C9 amended: the merge loop is the identity on detection lists with
no merge left to perform: every detection has nonzero objectness and self-IoU
above `nms_thres`, and no two distinct detections of equal predicted class
overlap above `nms_thres`. (Full `non_max_suppression` is not idempotent on
its own output: the corner-form output is re-interpreted as center-size by
`xywh2xyxy`, and merged coordinates may create new overlaps.) -/
theorem nms_merge_loop_fixpoint (t : ℚ) (l : List Det)
    (hself : ∀ d ∈ l, t < bbox_iou (detBox d) (detBox d))
    (hconf : ∀ d ∈ l, d.conf ≠ 0)
    (hpair : l.Pairwise fun a b => a.cls_pred = b.cls_pred →
      bbox_iou (detBox a) (detBox b) ≤ t) :
    nmsLoop t l.length l = l := by
  induction l with
  | nil => rfl
  | cons c rest ih =>
    have hcc : invalidFlag t c c = true := by
      simp [invalidFlag, hself c (by simp)]
    have hrest : ∀ d ∈ rest, invalidFlag t c d = false := by
      intro d hd
      by_cases hcls : d.cls_pred = c.cls_pred
      · have hle := (List.pairwise_cons.mp hpair).1 d hd hcls.symm
        simp [invalidFlag, hcls, not_lt.mpr hle]
      · simp [invalidFlag, hcls]
    have hmerge : mergedHead t (c :: rest) c = c :=
      mergedHead_self t c rest hcc hrest (hconf c (by simp))
    have hkeep : (rest.filter fun d => !(invalidFlag t c d)) = rest :=
      List.filter_eq_self.mpr fun a ha => by simp [hrest a ha]
    rw [List.length_cons]
    show nmsLoop t (rest.length + 1) (c :: rest) = c :: rest
    rw [nmsLoop, nmsStep_cons, hmerge, hcc, hkeep]
    simp only [if_true, List.nil_append]
    exact congrArg (c :: ·) (ih (fun d hd => hself d (by simp [hd]))
      (fun d hd => hconf d (by simp [hd])) (List.pairwise_cons.mp hpair).2)

/-- Witness for the amended C9: two same-class, far-apart detections are left
exactly as they are by the merge loop. -/
theorem nms_merge_loop_fixpoint_witness :
    ((2 : ℚ) / 5 < bbox_iou (detBox ⟨0, 0, 2, 2, 9 / 10, 4 / 5, 0⟩)
        (detBox ⟨0, 0, 2, 2, 9 / 10, 4 / 5, 0⟩)) ∧
      nmsLoop (2 / 5) 2
        [⟨0, 0, 2, 2, 9 / 10, 4 / 5, 0⟩, ⟨100, 100, 102, 102, 1 / 2, 3 / 5, 0⟩] =
        [⟨0, 0, 2, 2, 9 / 10, 4 / 5, 0⟩, ⟨100, 100, 102, 102, 1 / 2, 3 / 5, 0⟩] := by
  have h1 : (2 : ℚ) / 5 < bbox_iou (detBox ⟨0, 0, 2, 2, 9 / 10, 4 / 5, 0⟩)
      (detBox ⟨0, 0, 2, 2, 9 / 10, 4 / 5, 0⟩) := by
    simp only [bbox_iou, detBox, eps]
    norm_num [min_def, max_def]
  have h2 : (2 : ℚ) / 5 < bbox_iou (detBox ⟨100, 100, 102, 102, 1 / 2, 3 / 5, 0⟩)
      (detBox ⟨100, 100, 102, 102, 1 / 2, 3 / 5, 0⟩) := by
    simp only [bbox_iou, detBox, eps]
    norm_num [min_def, max_def]
  have h12 : bbox_iou (detBox ⟨0, 0, 2, 2, 9 / 10, 4 / 5, 0⟩)
      (detBox ⟨100, 100, 102, 102, 1 / 2, 3 / 5, 0⟩) ≤ 2 / 5 := by
    simp only [bbox_iou, detBox, eps]
    norm_num [min_def, max_def]
  refine ⟨h1, nms_merge_loop_fixpoint (2 / 5)
    [⟨0, 0, 2, 2, 9 / 10, 4 / 5, 0⟩, ⟨100, 100, 102, 102, 1 / 2, 3 / 5, 0⟩] ?_ ?_ ?_⟩
  · intro d hd
    rcases List.mem_pair.mp hd with h | h <;> subst h
    · exact h1
    · exact h2
  · intro d hd
    rcases List.mem_pair.mp hd with h | h <;> subst h <;> norm_num
  · refine List.pairwise_cons.mpr ⟨?_, List.pairwise_singleton _ _⟩
    intro d hd
    rw [List.mem_singleton] at hd
    subst hd
    intro _
    exact h12

/-- Helper: the merge loop on a single self-overlapping candidate keeps it
unchanged and stops. -/
theorem nmsLoop_singleton (t : ℚ) (c : Det) (hcc : invalidFlag t c c = true)
    (hc : c.conf ≠ 0) : nmsLoop t 1 [c] = [c] := by
  have hm : mergedHead t [c] c = c := mergedHead_self t c [] hcc (by simp) hc
  simp [nmsLoop, nmsStep_cons, hcc, hm]

/-- Helper: the per-image pipeline on a single confident, self-overlapping
candidate returns exactly its converted detection row. -/
theorem image_nms_singleton (ct t : ℚ) (r : PredRow)
    (hsurv : ct ≤ r.conf) (hc : r.conf ≠ 0)
    (hflag : invalidFlag t (rowToDet r) (rowToDet r) = true) :
    image_nms ct t [r] = some [rowToDet r] := by
  have hfilt : List.filter (fun x => decide (ct ≤ x.conf)) [r] = [r] := by
    simp [hsurv]
  unfold image_nms
  rw [hfilt]
  simp [sortByScoreDesc, insertDesc, nmsLoop_singleton t (rowToDet r) hflag hc]

/-- Counterexample to Claim C9 as stated: `non_max_suppression` on the batch
`[[(cx, cy, w, h, conf, scores) = (1, 1, 2, 2, 9/10, [4/5])]]` (thresholds
`conf_thres = 1/2`, `nms_thres = 2/5`) outputs the single detection
`(0, 0, 2, 2, 9/10, 4/5, 0)`; re-running `non_max_suppression` on that output
does not return it unchanged — the corner-form box is converted by
`xywh2xyxy` again, yielding `(-1, -1, 1, 1, ...)`. -/
theorem nms_not_idempotent :
    non_max_suppression [[⟨1, 1, 2, 2, 9 / 10, [4 / 5]⟩]] (1 / 2) (2 / 5) =
        [some [⟨0, 0, 2, 2, 9 / 10, 4 / 5, 0⟩]] ∧
      non_max_suppression [[detToRow ⟨0, 0, 2, 2, 9 / 10, 4 / 5, 0⟩]] (1 / 2) (2 / 5) ≠
        [some [⟨0, 0, 2, 2, 9 / 10, 4 / 5, 0⟩]] := by
  have hr1 : rowToDet ⟨1, 1, 2, 2, 9 / 10, [4 / 5]⟩ = ⟨0, 0, 2, 2, 9 / 10, 4 / 5, 0⟩ := by
    simp [rowToDet, xywh2xyxy, maxD, argmaxIdx]
    norm_num
  have hr2 : rowToDet (detToRow ⟨0, 0, 2, 2, 9 / 10, 4 / 5, 0⟩) =
      ⟨-1, -1, 1, 1, 9 / 10, 4 / 5, 0⟩ := by
    simp [rowToDet, detToRow, xywh2xyxy, maxD, argmaxIdx]
    norm_num [max_def]
  have hf1 : invalidFlag (2 / 5) ⟨0, 0, 2, 2, 9 / 10, 4 / 5, 0⟩
      ⟨0, 0, 2, 2, 9 / 10, 4 / 5, 0⟩ = true := by
    simp only [invalidFlag, detBox, bbox_iou, eps]
    norm_num [min_def, max_def]
  have hf2 : invalidFlag (2 / 5) ⟨-1, -1, 1, 1, 9 / 10, 4 / 5, 0⟩
      ⟨-1, -1, 1, 1, 9 / 10, 4 / 5, 0⟩ = true := by
    simp only [invalidFlag, detBox, bbox_iou, eps]
    norm_num [min_def, max_def]
  constructor
  · simp only [non_max_suppression, List.map_cons, List.map_nil]
    rw [image_nms_singleton (1 / 2) (2 / 5) _ (by norm_num) (by norm_num)
      (by rw [hr1]; exact hf1)]
    rw [hr1]
  · simp only [non_max_suppression, List.map_cons, List.map_nil]
    rw [image_nms_singleton (1 / 2) (2 / 5) _ (by norm_num [detToRow]) (by norm_num [detToRow])
      (by rw [hr2]; exact hf2)]
    rw [hr2]
    simp only [ne_eq, List.cons.injEq, Option.some.injEq, Det.mk.injEq]
    norm_num

/-- Counterexample to Claim C7 as stated: with the out-of-range configuration
`conf_thres = 2 ∉ [0, 1]`, `non_max_suppression` does not fail fast with any
configuration-error signal — it runs its ordinary tensor pipeline to
completion and returns a normal all-absent output (the source contains no
validation code at all). -/
theorem nms_invalid_conf_thres_processed :
    ¬((2 : ℚ) ≤ 1) ∧
      non_max_suppression [[⟨1, 1, 2, 2, 9 / 10, [4 / 5]⟩]] 2 (2 / 5) = [none] := by
  constructor
  · norm_num
  · simp only [non_max_suppression, List.map_cons, List.map_nil]
    unfold image_nms
    have hfilt : List.filter (fun r => decide ((2 : ℚ) ≤ r.conf))
        [(⟨1, 1, 2, 2, 9 / 10, [4 / 5]⟩ : PredRow)] = [] := by
      simp only [List.filter_cons, List.filter_nil, decide_eq_true_eq]
      norm_num
    rw [hfilt]

/-- Claim C7 amended: `non_max_suppression` and `build_targets` perform no
configuration validation whatsoever; malformed thresholds are processed as
ordinary numbers. In particular, for any batch whose objectness values lie in
the valid range (`≤ 1`), running with a `conf_thres` above 1 silently filters
out every candidate and yields an all-`None` output instead of raising a
configuration error. -/
theorem nms_no_config_validation (batch : List (List PredRow)) (ct t : ℚ)
    (hct : 1 < ct) (hconf : ∀ rows ∈ batch, ∀ r ∈ rows, r.conf ≤ 1) :
    non_max_suppression batch ct t = batch.map fun _ => none := by
  unfold non_max_suppression
  refine List.map_congr_left ?_
  intro rows hrows
  have hfilt : List.filter (fun r => decide (ct ≤ r.conf)) rows = [] := by
    rw [List.filter_eq_nil_iff]
    intro r hr
    simp only [decide_eq_true_eq, not_le]
    exact lt_of_le_of_lt (hconf rows hrows r hr) hct
  unfold image_nms
  rw [hfilt]

/-- Witness for the amended C7 at a concrete batch. -/
theorem nms_no_config_validation_witness :
    (1 : ℚ) < 2 ∧
      non_max_suppression [[⟨1, 1, 2, 2, 9 / 10, [4 / 5]⟩]] 2 (1 / 2) =
        [[(⟨1, 1, 2, 2, 9 / 10, [4 / 5]⟩ : PredRow)]].map fun _ => none :=
  ⟨by norm_num,
    nms_no_config_validation [[⟨1, 1, 2, 2, 9 / 10, [4 / 5]⟩]] 2 (1 / 2) (by norm_num)
      (by
        intro rows hrows r hr
        rw [List.mem_singleton] at hrows
        subst hrows
        rw [List.mem_singleton] at hr
        subst hr
        norm_num)⟩

/-- Helper: a location never written keeps its initial value. -/
theorem scatterList_of_not_mem {K β : Type} [DecidableEq K] (init : K → β)
    (ws : List (K × β)) (k : K) (h : ∀ p ∈ ws, p.1 ≠ k) :
    scatterList init ws k = init k := by
  induction ws generalizing init with
  | nil => rfl
  | cons w rest ih =>
    show scatterList (fun i => if i = w.1 then w.2 else init i) rest k = init k
    rw [ih _ fun p hp => h p (List.mem_cons_of_mem w hp)]
    exact if_neg fun hk => h w (List.mem_cons_self w rest) hk.symm

/-- Helper: if every write carries the same value and some write hits the
location, the final value is that value (write order immaterial). -/
theorem scatterList_const {K β : Type} [DecidableEq K] (init : K → β)
    (ws : List (K × β)) (k : K) (v : β)
    (hall : ∀ p ∈ ws, p.2 = v) (hit : ∃ p ∈ ws, p.1 = k) :
    scatterList init ws k = v := by
  induction ws generalizing init with
  | nil => rcases hit with ⟨p, hp, _⟩; cases hp
  | cons w rest ih =>
    show scatterList (fun i => if i = w.1 then w.2 else init i) rest k = v
    by_cases hrest : ∃ p ∈ rest, p.1 = k
    · exact ih _ (fun p hp => hall p (List.mem_cons_of_mem w hp)) hrest
    · have hw : w.1 = k := by
        rcases hit with ⟨p, hp, hpk⟩
        rcases List.mem_cons.mp hp with h | h
        · rw [← h]; exact hpk
        · exact absurd ⟨p, h, hpk⟩ hrest
      rw [scatterList_of_not_mem _ _ _ fun p hp hpk => hrest ⟨p, hp, hpk⟩]
      rw [if_pos hw.symm]
      exact hall w (List.mem_cons_self w rest)

/-- Helper: the value at a location is the one of its last write. -/
theorem scatterList_last {K β : Type} [DecidableEq K] (init : K → β)
    (ws : List (K × β)) (k : K) (v : β) (i : ℕ)
    (hi : ws[i]? = some (k, v))
    (hafter : ∀ j, i < j → ∀ p, ws[j]? = some p → p.1 ≠ k) :
    scatterList init ws k = v := by
  induction ws generalizing init i with
  | nil => simp at hi
  | cons w rest ih =>
    show scatterList (fun x => if x = w.1 then w.2 else init x) rest k = v
    cases i with
    | zero =>
      simp only [List.getElem?_cons_zero, Option.some.injEq] at hi
      have hnone : ∀ p ∈ rest, p.1 ≠ k := by
        intro p hp
        rcases List.getElem?_of_mem hp with ⟨j, hj⟩
        exact hafter (j + 1) (Nat.succ_pos j) p (by simpa using hj)
      rw [scatterList_of_not_mem _ _ _ hnone, hi]
      simp
    | succ i' =>
      refine ih _ i' (by simpa using hi) ?_
      intro j hj p hp
      exact hafter (j + 1) (by omega) p (by simpa using hp)

/-- Helper: `scatterList_last` specialised to per-target writes: the value of
target `t`'s write survives when no later target writes to the same
location. -/
theorem scatterList_map_last {β : Type} (init : (ℕ × ℕ × ℤ × ℤ) → β)
    (targets : List BTarget) (f : BTarget → ℕ × ℕ × ℤ × ℤ) (g : BTarget → β)
    (i : ℕ) (t : BTarget) (ht : targets[i]? = some t)
    (hafter : ∀ j, i < j → ∀ t', targets[j]? = some t' → f t' ≠ f t) :
    scatterList init (targets.map fun u => (f u, g u)) (f t) = g t := by
  refine scatterList_last init _ _ _ i ?_ ?_
  · rw [List.getElem?_map, ht]; rfl
  · intro j hj p hp
    rw [List.getElem?_map] at hp
    cases hu : targets[j]? with
    | none => rw [hu] at hp; cases hp
    | some t' =>
      rw [hu] at hp
      have : p = (f t', g t') := by simpa using hp.symm
      rw [this]
      exact hafter j hj t' hu

/-- Helper: `.long()` truncation agrees with the floor on nonnegative
rationals. -/
theorem truncQ_of_nonneg {q : ℚ} (h : 0 ≤ q) : truncQ q = ⌊q⌋ := if_pos h

/-- Claim C2 amended: for every ground-truth box — provided no later ground
truth of the batch maps to the same `(batch, anchor, row, col)` location
(otherwise, under the source's last-write-wins vectorised assignment, the
later box silently overwrites the regression targets) — at the grid cell of
its scaled center and the anchor of maximal size-only IoU: the object mask is
1, the no-object mask is 0, `tx`/`ty` are the fractional parts of the scaled
center, and `tw`/`th` are `log(size / anchorSize + 1e-16)`; for nonnegative
centers, the cell indices are the floors of the scaled center coordinates. -/
theorem build_targets_primary_assignment (targets : List BTarget)
    (anchors : List (ℚ × ℚ)) (nG : ℕ) (ignore_thres : ℚ) (i : ℕ) (t : BTarget)
    (ht : targets[i]? = some t) (hx : 0 ≤ t.x) (hy : 0 ≤ t.y)
    (hcol : ∀ j, i < j → ∀ t', targets[j]? = some t' →
      targetLoc anchors nG t' ≠ targetLoc anchors nG t) :
    obj_mask targets anchors nG (targetLoc anchors nG t) = 1 ∧
      noobj_mask targets anchors nG ignore_thres (targetLoc anchors nG t) = 0 ∧
      tx_tensor targets anchors nG (targetLoc anchors nG t) =
        gxOf nG t - (⌊gxOf nG t⌋ : ℤ) ∧
      ty_tensor targets anchors nG (targetLoc anchors nG t) =
        gyOf nG t - (⌊gyOf nG t⌋ : ℤ) ∧
      tw_tensor targets anchors nG (targetLoc anchors nG t) =
        Real.log ((gwOf nG t / (anchors.getD (bestAnchor anchors nG t) (0, 0)).1 + eps : ℚ)) ∧
      th_tensor targets anchors nG (targetLoc anchors nG t) =
        Real.log ((ghOf nG t / (anchors.getD (bestAnchor anchors nG t) (0, 0)).2 + eps : ℚ)) ∧
      (targetLoc anchors nG t).2.2.1 = ⌊gyOf nG t⌋ ∧
      (targetLoc anchors nG t).2.2.2 = ⌊gxOf nG t⌋ := by
  have hmem : t ∈ targets := List.getElem?_mem ht
  refine ⟨?_, ?_, ?_, ?_, ?_, ?_, ?_, ?_⟩
  · refine scatterList_const _ _ _ _ ?_ ?_
    · intro p hp
      rcases List.mem_map.mp hp with ⟨u, _, rfl⟩
      rfl
    · exact ⟨(targetLoc anchors nG t, 1), List.mem_map_of_mem _ hmem, rfl⟩
  · refine scatterList_const _ _ _ _ ?_ ?_
    · intro p hp
      rcases List.mem_append.mp hp with h | h
      · rcases List.mem_map.mp h with ⟨u, _, rfl⟩
        rfl
      · rcases List.mem_flatMap.mp h with ⟨u, _, hu⟩
        rcases List.mem_map.mp hu with ⟨a, _, rfl⟩
        rfl
    · exact ⟨(targetLoc anchors nG t, 0),
        List.mem_append_left _ (List.mem_map_of_mem _ hmem), rfl⟩
  · exact scatterList_map_last _ targets (targetLoc anchors nG)
      (fun u => gxOf nG u - (⌊gxOf nG u⌋ : ℤ)) i t ht hcol
  · exact scatterList_map_last _ targets (targetLoc anchors nG)
      (fun u => gyOf nG u - (⌊gyOf nG u⌋ : ℤ)) i t ht hcol
  · exact scatterList_map_last _ targets (targetLoc anchors nG)
      (fun u => Real.log ((gwOf nG u / (anchors.getD (bestAnchor anchors nG u) (0, 0)).1 +
        eps : ℚ))) i t ht hcol
  · exact scatterList_map_last _ targets (targetLoc anchors nG)
      (fun u => Real.log ((ghOf nG u / (anchors.getD (bestAnchor anchors nG u) (0, 0)).2 +
        eps : ℚ))) i t ht hcol
  · exact truncQ_of_nonneg (mul_nonneg hy (Nat.cast_nonneg nG))
  · exact truncQ_of_nonneg (mul_nonneg hx (Nat.cast_nonneg nG))

/-- Helper: over a single anchor the best-anchor index is 0. -/
theorem argmaxIdx_singleton (q : ℚ) : argmaxIdx [q] = 0 := by
  simp [argmaxIdx]

/-- Helper: over a single anchor `best_n = 0` for any ground truth. -/
theorem bestAnchor_single (a : ℚ × ℚ) (nG : ℕ) (u : BTarget) :
    bestAnchor [a] nG u = 0 := by
  rw [bestAnchor, anchorIous, List.map_cons, List.map_nil]
  exact argmaxIdx_singleton _

/-- Helper: truncation of a rational in `[0, 1)` is 0. -/
theorem truncQ_eq_zero {q : ℚ} (h0 : 0 ≤ q) (h1 : q < 1) : truncQ q = 0 := by
  rw [truncQ_of_nonneg h0]
  exact Int.floor_eq_zero_iff.mpr ⟨h0, h1⟩

/-- Counterexample to Claim C2 as stated: the two ground truths
`(b, label, x, y, w, h) = (0, 0, 3/20, 3/20, 1/4, 1/4)` and
`(0, 0, 7/20, 7/20, 1/4, 1/4)` (grid size 2, single anchor `(1, 1)`) both map
to location `(0, 0, 0, 0)`; the fractional part of the first one's scaled
center is `3/10`, but `tx` at its location holds the second one's value
`7/10` — the later ground truth overwrote it. -/
theorem build_targets_overwrite_counterexample :
    targetLoc [(1, 1)] 2 ⟨0, 0, 3/20, 3/20, 1/4, 1/4⟩ = (0, 0, 0, 0) ∧
      targetLoc [(1, 1)] 2 ⟨0, 0, 7/20, 7/20, 1/4, 1/4⟩ = (0, 0, 0, 0) ∧
      gxOf 2 ⟨0, 0, 3/20, 3/20, 1/4, 1/4⟩ -
        (⌊gxOf 2 ⟨0, 0, 3/20, 3/20, 1/4, 1/4⟩⌋ : ℤ) = 3/10 ∧
      tx_tensor [⟨0, 0, 3/20, 3/20, 1/4, 1/4⟩, ⟨0, 0, 7/20, 7/20, 1/4, 1/4⟩]
        [(1, 1)] 2 (0, 0, 0, 0) = 7/10 ∧
      (7 : ℚ)/10 ≠ 3/10 := by
  have hg1 : gxOf 2 ⟨0, 0, 3/20, 3/20, 1/4, 1/4⟩ = 3/10 := by
    show (3 : ℚ)/20 * (2 : ℕ) = 3/10
    norm_num
  have hg2 : gxOf 2 ⟨0, 0, 7/20, 7/20, 1/4, 1/4⟩ = 7/10 := by
    show (7 : ℚ)/20 * (2 : ℕ) = 7/10
    norm_num
  have hy1 : gyOf 2 ⟨0, 0, 3/20, 3/20, 1/4, 1/4⟩ = 3/10 := by
    show (3 : ℚ)/20 * (2 : ℕ) = 3/10
    norm_num
  have hy2 : gyOf 2 ⟨0, 0, 7/20, 7/20, 1/4, 1/4⟩ = 7/10 := by
    show (7 : ℚ)/20 * (2 : ℕ) = 7/10
    norm_num
  have hf1 : (⌊(3 : ℚ)/10⌋ : ℤ) = 0 := Int.floor_eq_zero_iff.mpr ⟨by norm_num, by norm_num⟩
  have hf2 : (⌊(7 : ℚ)/10⌋ : ℤ) = 0 := Int.floor_eq_zero_iff.mpr ⟨by norm_num, by norm_num⟩
  have htr1 : truncQ (3/10 : ℚ) = 0 := truncQ_eq_zero (by norm_num) (by norm_num)
  have htr2 : truncQ (7/10 : ℚ) = 0 := truncQ_eq_zero (by norm_num) (by norm_num)
  have hloc1 : targetLoc [(1, 1)] 2 ⟨0, 0, 3/20, 3/20, 1/4, 1/4⟩ = (0, 0, 0, 0) := by
    rw [targetLoc, bestAnchor_single, hg1, hy1, htr1]
  have hloc2 : targetLoc [(1, 1)] 2 ⟨0, 0, 7/20, 7/20, 1/4, 1/4⟩ = (0, 0, 0, 0) := by
    rw [targetLoc, bestAnchor_single, hg2, hy2, htr2]
  refine ⟨hloc1, hloc2, ?_, ?_, by norm_num⟩
  · rw [hg1, hf1]
    norm_num
  · have hlast := scatterList_map_last (fun _ => (0 : ℚ))
      [⟨0, 0, 3/20, 3/20, 1/4, 1/4⟩, ⟨0, 0, 7/20, 7/20, 1/4, 1/4⟩]
      (targetLoc [(1, 1)] 2) (fun u => gxOf 2 u - (⌊gxOf 2 u⌋ : ℤ)) 1
      ⟨0, 0, 7/20, 7/20, 1/4, 1/4⟩ rfl
      (by
        intro j hj t' h
        rw [List.getElem?_eq_none (by simp; omega)] at h
        cases h)
    rw [hloc2] at hlast
    show tx_tensor _ [(1, 1)] 2 (0, 0, 0, 0) = 7/10
    rw [tx_tensor, hlast]
    show gxOf 2 ⟨0, 0, 7/20, 7/20, 1/4, 1/4⟩ -
      (⌊gxOf 2 ⟨0, 0, 7/20, 7/20, 1/4, 1/4⟩⌋ : ℤ) = 7/10
    rw [hg2, hf2]
    norm_num

/-- Witness for the amended C2 at a single collision-free ground truth. -/
theorem build_targets_primary_assignment_witness :
    obj_mask [⟨0, 0, 3/20, 3/20, 1/4, 1/4⟩] [(1, 1)] 2
        (targetLoc [(1, 1)] 2 ⟨0, 0, 3/20, 3/20, 1/4, 1/4⟩) = 1 ∧
      noobj_mask [⟨0, 0, 3/20, 3/20, 1/4, 1/4⟩] [(1, 1)] 2 (1/2)
        (targetLoc [(1, 1)] 2 ⟨0, 0, 3/20, 3/20, 1/4, 1/4⟩) = 0 ∧
      tx_tensor [⟨0, 0, 3/20, 3/20, 1/4, 1/4⟩] [(1, 1)] 2
        (targetLoc [(1, 1)] 2 ⟨0, 0, 3/20, 3/20, 1/4, 1/4⟩) =
        gxOf 2 ⟨0, 0, 3/20, 3/20, 1/4, 1/4⟩ -
          (⌊gxOf 2 ⟨0, 0, 3/20, 3/20, 1/4, 1/4⟩⌋ : ℤ) ∧
      ty_tensor [⟨0, 0, 3/20, 3/20, 1/4, 1/4⟩] [(1, 1)] 2
        (targetLoc [(1, 1)] 2 ⟨0, 0, 3/20, 3/20, 1/4, 1/4⟩) =
        gyOf 2 ⟨0, 0, 3/20, 3/20, 1/4, 1/4⟩ -
          (⌊gyOf 2 ⟨0, 0, 3/20, 3/20, 1/4, 1/4⟩⌋ : ℤ) ∧
      tw_tensor [⟨0, 0, 3/20, 3/20, 1/4, 1/4⟩] [(1, 1)] 2
        (targetLoc [(1, 1)] 2 ⟨0, 0, 3/20, 3/20, 1/4, 1/4⟩) =
        Real.log ((gwOf 2 ⟨0, 0, 3/20, 3/20, 1/4, 1/4⟩ /
          ([((1 : ℚ), (1 : ℚ))].getD (bestAnchor [(1, 1)] 2 ⟨0, 0, 3/20, 3/20, 1/4, 1/4⟩)
            (0, 0)).1 + eps : ℚ)) ∧
      th_tensor [⟨0, 0, 3/20, 3/20, 1/4, 1/4⟩] [(1, 1)] 2
        (targetLoc [(1, 1)] 2 ⟨0, 0, 3/20, 3/20, 1/4, 1/4⟩) =
        Real.log ((ghOf 2 ⟨0, 0, 3/20, 3/20, 1/4, 1/4⟩ /
          ([((1 : ℚ), (1 : ℚ))].getD (bestAnchor [(1, 1)] 2 ⟨0, 0, 3/20, 3/20, 1/4, 1/4⟩)
            (0, 0)).2 + eps : ℚ)) ∧
      (targetLoc [(1, 1)] 2 ⟨0, 0, 3/20, 3/20, 1/4, 1/4⟩).2.2.1 =
        ⌊gyOf 2 ⟨0, 0, 3/20, 3/20, 1/4, 1/4⟩⌋ ∧
      (targetLoc [(1, 1)] 2 ⟨0, 0, 3/20, 3/20, 1/4, 1/4⟩).2.2.2 =
        ⌊gxOf 2 ⟨0, 0, 3/20, 3/20, 1/4, 1/4⟩⌋ :=
  build_targets_primary_assignment [⟨0, 0, 3/20, 3/20, 1/4, 1/4⟩] [(1, 1)] 2 (1/2) 0
    ⟨0, 0, 3/20, 3/20, 1/4, 1/4⟩ rfl (by norm_num) (by norm_num)
    (by
      intro j hj t' h
      rw [List.getElem?_eq_none (by simp; omega)] at h
      cases h)

/-- Counterexample to Claim C3 as stated: an image holds a class-0 ground
truth at `(0, 0, 10, 10)` and a class-1 ground truth at
`(100, 100, 110, 110)`; the single detection has predicted class 0 but sits
exactly on the class-1 box. Its class passes the presence screen (class 0
occurs in the image), the per-class-unfiltered IoU argmax selects the class-1
box, and the detection is marked true-positive while claiming ground-truth
index 1 — a box of a different class than the detection's. -/
theorem match_cross_class_counterexample :
    gbs_match (1/2) [⟨0, 0, 0, 10, 10⟩, ⟨1, 100, 100, 110, 110⟩]
        [⟨100, 100, 110, 110, 9/10, 0⟩] [] = ([1], [1]) ∧
      (⟨1, 100, 100, 110, 110⟩ : GtAnn).label = 1 ∧
      (⟨100, 100, 110, 110, 9/10, 0⟩ : PredDet).label = 0 ∧ (1 : ℚ) ≠ 0 := by
  refine ⟨?_, rfl, rfl, by norm_num⟩
  norm_num [gbs_match, bbox_iou, eps, maxD, argmaxIdx, min_def, max_def]

/-- Claim C3 amended: `get_batch_statistics` screens a detection only by the
presence of its predicted class among the image's ground-truth classes; the
match itself is the maximum-IoU still-unclaimed ground truth of any class, so
a wrong-class box can be claimed (see the counterexample). What does hold:
every detection marked true-positive has its predicted class among the
image's ground-truth labels. -/
theorem match_requires_label_present (thr : ℚ) (anns : List GtAnn) :
    ∀ (ds : List PredDet) (claimed : List ℕ) (i : ℕ) (q : ℚ),
      ((gbs_match thr anns ds claimed).1)[i]? = some q → q ≠ 0 →
      ∃ d, ds[i]? = some d ∧ d.label ∈ anns.map GtAnn.label := by
  intro ds
  induction ds with
  | nil =>
    intro claimed i q hq _
    rw [gbs_match] at hq
    simp at hq
  | cons d rest ih =>
    intro claimed i q hq hq0
    rw [gbs_match] at hq
    by_cases hbreak : claimed.length = anns.length
    · rw [if_pos hbreak] at hq
      have : q = 0 := by
        have h := hq
        rw [List.getElem?_replicate] at h
        split at h
        · exact (Option.some.inj h).symm
        · cases h
      exact absurd this hq0
    · rw [if_neg hbreak] at hq
      by_cases hlab : d.label ∈ anns.map GtAnn.label
      · rw [if_pos hlab] at hq
        dsimp only at hq
        split at hq
        · cases i with
          | zero =>
            exact ⟨d, by simp, hlab⟩
          | succ i' =>
            rcases ih _ i' q (by simpa using hq) hq0 with ⟨d', hd', hl'⟩
            exact ⟨d', by simpa using hd', hl'⟩
        · cases i with
          | zero =>
            have : q = 0 := by simpa using hq.symm
            exact absurd this hq0
          | succ i' =>
            rcases ih _ i' q (by simpa using hq) hq0 with ⟨d', hd', hl'⟩
            exact ⟨d', by simpa using hd', hl'⟩
      · rw [if_neg hlab] at hq
        dsimp only at hq
        cases i with
        | zero =>
          have : q = 0 := by simpa using hq.symm
          exact absurd this hq0
        | succ i' =>
          rcases ih _ i' q (by simpa using hq) hq0 with ⟨d', hd', hl'⟩
          exact ⟨d', by simpa using hd', hl'⟩

/-- Witness for the amended C3: a true-positive same-class match whose
predicted class indeed occurs among the ground-truth labels. -/
theorem match_requires_label_present_witness :
    ((gbs_match (1/2) [⟨0, 0, 0, 10, 10⟩] [⟨0, 0, 10, 10, 9/10, 0⟩] []).1)[0]? =
        some 1 ∧
      ∃ d, ([(⟨0, 0, 10, 10, 9/10, 0⟩ : PredDet)])[0]? = some d ∧
        d.label ∈ ([(⟨0, 0, 0, 10, 10⟩ : GtAnn)]).map GtAnn.label := by
  have h : ((gbs_match (1/2) [⟨0, 0, 0, 10, 10⟩] [⟨0, 0, 10, 10, 9/10, 0⟩] []).1)[0]? =
      some 1 := by
    norm_num [gbs_match, bbox_iou, eps, maxD, argmaxIdx, min_def, max_def]
  exact ⟨h, match_requires_label_present (1/2) [⟨0, 0, 0, 10, 10⟩]
    [⟨0, 0, 10, 10, 9/10, 0⟩] [] 0 1 h (by norm_num)⟩

/-- Helper: `np.unique` preserves membership. -/
theorem mem_uniqueSorted (l : List ℤ) (c : ℤ) : c ∈ uniqueSorted l ↔ c ∈ l := by
  rw [uniqueSorted, List.mem_dedup]
  exact (List.perm_insertionSort _ l).mem_iff

/-- Helper: a class absent from the predictions has an empty per-class tp
slice. -/
theorem classTps_nil_of_count_zero (tp conf : List ℚ) (pred : List ℤ) (c : ℤ)
    (h : pred.count c = 0) : classTps (sortedTriples tp conf pred) c = [] := by
  rw [classTps, List.filter_eq_nil_iff.mpr ?_]
  · rfl
  · intro x hx
    obtain ⟨a, b, p⟩ := x
    have hx' : (a, b, p) ∈ tp.zip (conf.zip pred) :=
      (List.perm_insertionSort _ _).mem_iff.mp hx
    have hp : p ∈ pred := (List.of_mem_zip (List.of_mem_zip hx').2).2
    have : c ∉ pred := List.count_eq_zero.mp h
    simp only [decide_eq_true_eq]
    intro hpc
    exact this (hpc ▸ hp)

/-- Helper: the loop body never hits the skip branch for a class with ground
truth. -/
theorem apEntry_isSome (s : List (ℚ × ℚ × ℤ)) (target : List ℤ) (c : ℤ)
    (hgt : target.count c ≠ 0) : (apEntry s target c).isSome := by
  rw [apEntry]
  dsimp only
  rw [if_neg fun h => hgt h.2]
  split <;> rfl

/-- Helper: a class with ground truth but an empty prediction slice is
recorded as `(0, 0, 0)`. -/
theorem apEntry_zero (s : List (ℚ × ℚ × ℤ)) (target : List ℤ) (c : ℤ)
    (hgt : target.count c ≠ 0) (hp : classTps s c = []) :
    apEntry s target c = some (0, 0, 0) := by
  rw [apEntry]
  dsimp only
  rw [hp]
  simp [hgt]

/-- Helper: a `filterMap` whose function never skips is a `map`. -/
theorem filterMap_eq_map_of_some {α β : Type} (f : α → Option β) (g : α → β)
    (l : List α) (h : ∀ a ∈ l, f a = some (g a)) : l.filterMap f = l.map g := by
  induction l with
  | nil => rfl
  | cons x xs ih =>
    rw [List.filterMap_cons, h x (List.mem_cons_self x xs), List.map_cons,
      ih fun a ha => h a (List.mem_cons_of_mem x ha)]

/-- Counterexample to Claim C4 as stated: with `tp = [1]`, `conf = [9/10]`,
`pred_cls = [5]`, `target_cls = [2]`, class 5 has a prediction and no ground
truth, yet the returned class list is exactly `[2]` — classes are enumerated
from the ground truth only, so class 5 is excluded entirely instead of being
recorded with zero metrics. -/
theorem ap_per_class_pred_only_excluded :
    (ap_per_class [1] [9/10] [5] [2]).classes = [2] ∧
      (5 : ℤ) ∉ (ap_per_class [1] [9/10] [5] [2]).classes ∧
      (5 : ℤ) ∈ ([5] : List ℤ) ∧ (2 : ℤ) ≠ 5 := by
  have h : (ap_per_class [1] [9/10] [5] [2]).classes = [2] := rfl
  exact ⟨h, by rw [h]; simp, by simp, by norm_num⟩

/-- Claim C4 amended: `ap_per_class` enumerates exactly the classes present
in the ground truth (in sorted order): a class with ground truth but zero
predictions is recorded with precision, recall and AP all 0, while a class
with predictions but no ground truth — and a class with neither — is excluded
entirely from the result. -/
theorem ap_per_class_classes_spec (tp conf : List ℚ) (pred target : List ℤ) :
    (∀ c, c ∈ (ap_per_class tp conf pred target).classes ↔ c ∈ target) ∧
      (∀ (i : ℕ) (c : ℤ), (ap_per_class tp conf pred target).classes[i]? = some c →
        pred.count c = 0 →
        (ap_per_class tp conf pred target).p[i]? = some (0 : ℚ) ∧
          (ap_per_class tp conf pred target).r[i]? = some (0 : ℚ) ∧
          (ap_per_class tp conf pred target).ap[i]? = some (0 : ℚ)) := by
  have hclasses : (ap_per_class tp conf pred target).classes = uniqueSorted target := rfl
  have hcount : ∀ c' ∈ uniqueSorted target, target.count c' ≠ 0 := by
    intro c' hc'
    have : c' ∈ target := (mem_uniqueSorted target c').mp hc'
    exact Nat.pos_iff_ne_zero.mp (List.count_pos_iff.mpr this)
  have hfm : (uniqueSorted target).filterMap (apEntry (sortedTriples tp conf pred) target) =
      (uniqueSorted target).map fun c' =>
        (apEntry (sortedTriples tp conf pred) target c').getD (0, 0, 0) := by
    refine filterMap_eq_map_of_some _ _ _ ?_
    intro c' hc'
    obtain ⟨v, hv⟩ := Option.isSome_iff_exists.mp
      (apEntry_isSome (sortedTriples tp conf pred) target c' (hcount c' hc'))
    rw [hv]
    rfl
  constructor
  · intro c
    rw [hclasses]
    exact mem_uniqueSorted target c
  · intro i c hc hzero
    rw [hclasses] at hc
    have hcmem : c ∈ uniqueSorted target := List.getElem?_mem hc
    have hentry : apEntry (sortedTriples tp conf pred) target c = some (0, 0, 0) :=
      apEntry_zero _ _ _ (hcount c hcmem)
        (classTps_nil_of_count_zero tp conf pred c hzero)
    have hp : (ap_per_class tp conf pred target).p =
        ((uniqueSorted target).filterMap
          (apEntry (sortedTriples tp conf pred) target)).map fun e => e.1 := rfl
    have hr : (ap_per_class tp conf pred target).r =
        ((uniqueSorted target).filterMap
          (apEntry (sortedTriples tp conf pred) target)).map fun e => e.2.1 := rfl
    have hap : (ap_per_class tp conf pred target).ap =
        ((uniqueSorted target).filterMap
          (apEntry (sortedTriples tp conf pred) target)).map fun e => e.2.2 := rfl
    refine ⟨?_, ?_, ?_⟩
    · rw [hp, hfm, List.map_map, List.getElem?_map, hc]
      simp [Function.comp, hentry]
    · rw [hr, hfm, List.map_map, List.getElem?_map, hc]
      simp [Function.comp, hentry]
    · rw [hap, hfm, List.map_map, List.getElem?_map, hc]
      simp [Function.comp, hentry]

/-- Witness for the amended C4: class 2 has ground truth and no predictions,
and is recorded with zero precision, recall and AP. -/
theorem ap_per_class_classes_spec_witness :
    (ap_per_class [1] [9/10] [5] [2]).classes[0]? = some 2 ∧
      ((ap_per_class [1] [9/10] [5] [2]).p[0]? = some (0 : ℚ) ∧
        (ap_per_class [1] [9/10] [5] [2]).r[0]? = some (0 : ℚ) ∧
        (ap_per_class [1] [9/10] [5] [2]).ap[0]? = some (0 : ℚ)) := by
  have hc : (ap_per_class [1] [9/10] [5] [2]).classes[0]? = some 2 := rfl
  exact ⟨hc, (ap_per_class_classes_spec [1] [9/10] [5] [2]).2 0 2 hc (by decide)⟩

end Yolo
